import Mathlib

/-!
Verification model of the mp-print job server.

The definitions below are shallow embeddings of the TypeScript sources:
* `src/services/QueueService.ts` (queue, dispatch batches, retries, retention)
* `src/services/PrintService.ts` (`processJob`)
* `src/services/PrinterService.ts` (copy loop, temp file names, `enhanceHtmlForPrinting`)
* `src/utils/circuitBreaker.ts` (`CircuitBreaker`)

JavaScript `Map`s are modelled as association lists in insertion order
(`JsMap`), JavaScript `Set`s of strings as lists in insertion order.
Timestamps (`Date.now()`) are modelled as `Int`, passed explicitly.
-/

/-- `PrintPriority` from `src/types`: `'low' | 'medium' | 'high'`. -/
inductive PrintPriority where
  | low
  | medium
  | high
deriving DecidableEq, Repr

/-- `PrintMetadata` (the field used by the queue comparator). -/
structure PrintMetadata where
  priority : PrintPriority
deriving DecidableEq, Repr

/-- `PrintRequest` from `src/types`, restricted to the fields the modelled
code paths read: `id`, `printerName`, `metadata.priority`, `timestamp`,
`retryCount`. -/
structure PrintRequest where
  id : String
  printerName : String
  metadata : PrintMetadata
  timestamp : Int
  retryCount : Nat
deriving DecidableEq, Repr

/-- `JobStatus` from `src/types`. -/
inductive JobStatus where
  | queued
  | processing
  | completed
  | failed
deriving DecidableEq, Repr

/-- `PrintJob` from `src/types`. -/
structure PrintJob where
  id : String
  status : JobStatus
  request : PrintRequest
  startTime : Option Int
  endTime : Option Int
  error : Option String
deriving DecidableEq, Repr

/-- The printing section of `config` (defaults from the repository's
config: maxQueueSize 10000, maxRetries 3, retryDelay 2000, batchSize 10,
maxConcurrentJobs 50). -/
structure PrintingConfig where
  maxQueueSize : Nat
  maxRetries : Nat
  retryDelay : Int
  batchSize : Nat
  maxConcurrentJobs : Nat
deriving DecidableEq, Repr

/-- Default values of the printing config. -/
def defaultPrintingConfig : PrintingConfig :=
  { maxQueueSize := 10000, maxRetries := 3, retryDelay := 2000,
    batchSize := 10, maxConcurrentJobs := 50 }

/-! ## JavaScript `Map` and `Set` embedding -/

/-- A JavaScript `Map` with string keys: entries in insertion order. -/
abbrev JsMap (α : Type) : Type := List (String × α)

/-- `Map.prototype.get`. -/
def mapGet? {α : Type} (m : JsMap α) (k : String) : Option α :=
  match m.find? (fun e => e.1 == k) with
  | some e => some e.2
  | none => none

/-- `Map.prototype.set`: replaces the value in place if the key exists,
otherwise appends the entry (insertion order). -/
def mapSet {α : Type} (m : JsMap α) (k : String) (v : α) : JsMap α :=
  if m.any (fun e => e.1 == k) then
    m.map (fun e => if e.1 == k then (k, v) else e)
  else
    m ++ [(k, v)]

/-- `Map.prototype.delete`. -/
def mapDelete {α : Type} (m : JsMap α) (k : String) : JsMap α :=
  m.filter (fun e => !(e.1 == k))

/-- `Map.prototype.size` (valid because `Map` keys are unique). -/
def mapSize {α : Type} (m : JsMap α) : Nat :=
  m.length

/-- `Array.from(map.values())`, in insertion order. -/
def mapValues {α : Type} (m : JsMap α) : List α :=
  m.map (fun e => e.2)

/-- A JavaScript `Set` of strings: elements in insertion order. -/
abbrev JsSet : Type := List String

/-- `Set.prototype.add`. -/
def setAdd (s : JsSet) (k : String) : JsSet :=
  if s.contains k then s else s ++ [k]

/-- `Set.prototype.delete`. -/
def setDelete (s : JsSet) (k : String) : JsSet :=
  s.filter (fun x => !(x == k))

/-- `Set.prototype.has`. -/
def setHas (s : JsSet) (k : String) : Bool :=
  s.contains k

/-! ## QueueService state and operations -/

/-- The four collections held by `QueueService`
(`queue`, `processingQueue`, `completedJobs`, `failedJobs`). -/
structure QueueState where
  queue : JsMap PrintJob
  processingQueue : JsSet
  completedJobs : JsMap PrintJob
  failedJobs : JsMap PrintJob

/-- `QueueService.addJob` (QueueService.ts:12-28).  Throwing
`'Queue is full'` is modelled as the `Except.error` component; the
returned state is unchanged in that case. -/
def addJob (cfg : PrintingConfig) (s : QueueState) (request : PrintRequest) :
    Except String String × QueueState :=
  if mapSize s.queue ≥ cfg.maxQueueSize then
    (Except.error "Queue is full", s)
  else
    let job : PrintJob :=
      { id := request.id, status := JobStatus.queued, request := request,
        startTime := none, endTime := none, error := none }
    (Except.ok request.id, { s with queue := mapSet s.queue request.id job })

/-- The priority ranking used by the comparator in
`QueueService.getNextJobs` (QueueService.ts:35): high 3, medium 2, low 1. -/
def priorityOrder : PrintPriority → Nat
  | PrintPriority.high => 3
  | PrintPriority.medium => 2
  | PrintPriority.low => 1

/-- The comparator of `QueueService.getNextJobs` (QueueService.ts:33-43),
expressed as the `cmp a b ≤ 0` relation the sort establishes:
`bPriority - aPriority` when priorities differ, else
`a.timestamp - b.timestamp`. -/
def jobLe (a b : PrintJob) : Bool :=
  if priorityOrder a.request.metadata.priority ≠ priorityOrder b.request.metadata.priority then
    decide (priorityOrder b.request.metadata.priority ≤ priorityOrder a.request.metadata.priority)
  else
    decide (a.request.timestamp ≤ b.request.timestamp)

/-- The in-place mutation of QueueService.ts:48-52 on each batch member. -/
def markProcessing (now : Int) (j : PrintJob) : PrintJob :=
  { j with status := JobStatus.processing, startTime := some now }

/-- `QueueService.getNextJobs` (QueueService.ts:30-55): filter out in-flight
jobs, sort by the comparator, take `batchSize`, mark each taken job as
processing (the marked jobs stay in the `queue` map, aliased in JS). -/
def getNextJobs (now : Int) (s : QueueState) (batchSize : Nat) :
    List PrintJob × QueueState :=
  let availableJobs :=
    ((mapValues s.queue).filter (fun j => !(setHas s.processingQueue j.id))).mergeSort jobLe
  let batch := (availableJobs.take batchSize).map (markProcessing now)
  (batch,
    { s with
      processingQueue := batch.foldl (fun ps j => setAdd ps j.id) s.processingQueue,
      queue := batch.foldl (fun q j => mapSet q j.id j) s.queue })

/-- The delay `config.printing.retryDelay * job.request.retryCount`
computed at QueueService.ts:80 (with the already-incremented count). -/
def retryDelayFor (cfg : PrintingConfig) (count : Nat) : Int :=
  cfg.retryDelay * (count : Int)

/-- `QueueService.completeJob` (QueueService.ts:57-88).  The
`setTimeout` re-admission is modelled as the returned
`Option (Int × PrintJob)`: the scheduled delay and the job the timer will
re-insert; until the timer fires that job is in no collection. -/
def completeJob (cfg : PrintingConfig) (now : Int) (s : QueueState)
    (jobId : String) (success : Bool) (error : Option String) :
    QueueState × Option (Int × PrintJob) :=
  match mapGet? s.queue jobId with
  | none => (s, none)
  | some job0 =>
    let job : PrintJob :=
      { job0 with
        endTime := some now,
        status := if success then JobStatus.completed else JobStatus.failed,
        error := match error with
          | some e => if e = "" then job0.error else some e
          | none => job0.error }
    let s1 : QueueState :=
      { s with
        processingQueue := setDelete s.processingQueue jobId,
        queue := mapDelete s.queue jobId }
    if success then
      ({ s1 with completedJobs := mapSet s1.completedJobs jobId job }, none)
    else
      if job.request.retryCount < cfg.maxRetries then
        let retryJob : PrintJob :=
          { job with
            request := { job.request with retryCount := job.request.retryCount + 1 },
            status := JobStatus.queued }
        (s1, some (retryDelayFor cfg (job.request.retryCount + 1), retryJob))
      else
        ({ s1 with failedJobs := mapSet s1.failedJobs jobId job }, none)

/-- The body of the `setTimeout` callback at QueueService.ts:77-80:
re-insert the retried job into the queue. -/
def applyRetry (s : QueueState) (job : PrintJob) : QueueState :=
  { s with queue := mapSet s.queue job.id job }

/-- `QueueService.getJob` (QueueService.ts:90-94). -/
def getJob (s : QueueState) (jobId : String) : Option PrintJob :=
  match mapGet? s.queue jobId with
  | some j => some j
  | none =>
    match mapGet? s.completedJobs jobId with
    | some j => some j
    | none => mapGet? s.failedJobs jobId

/-- `job.endTime || 0` as used by the retention comparator
(QueueService.ts:110). -/
def endTimeOrZero (j : PrintJob) : Int :=
  match j.endTime with
  | some t => if t = 0 then 0 else t
  | none => 0

/-- One retention sweep of `QueueService.cleanup` (QueueService.ts:105-131)
on one map: if over `cap`, sort entries by end time descending and delete
every entry past the first `cap` (the oldest ones). -/
def cleanupMap (cap : Nat) (m : JsMap PrintJob) : JsMap PrintJob :=
  if m.length > cap then
    let sorted := m.mergeSort (fun a b => decide (endTimeOrZero b.2 ≤ endTimeOrZero a.2))
    let toDelete := sorted.drop cap
    toDelete.foldl (fun acc e => mapDelete acc e.1) m
  else m

/-- `QueueService.cleanup` (QueueService.ts:105-131): keep the newest 1000
completed and 500 failed jobs. -/
def cleanup (s : QueueState) : QueueState :=
  { s with
    completedJobs := cleanupMap 1000 s.completedJobs,
    failedJobs := cleanupMap 500 s.failedJobs }

/-! ## C1: dispatch order -/

/-- The spec's ordering relation: priority rank descending, and admission
timestamp ascending within a priority. -/
def dispatchRespects (a b : PrintJob) : Prop :=
  priorityOrder b.request.metadata.priority < priorityOrder a.request.metadata.priority ∨
    (priorityOrder a.request.metadata.priority = priorityOrder b.request.metadata.priority ∧
      a.request.timestamp ≤ b.request.timestamp)

theorem jobLe_iff (a b : PrintJob) : jobLe a b = true ↔ dispatchRespects a b := by
  unfold jobLe dispatchRespects
  by_cases h : priorityOrder a.request.metadata.priority
      = priorityOrder b.request.metadata.priority
  · rw [if_neg (by simp [h])]
    simp [h]
  · rw [if_pos h]
    simp only [decide_eq_true_eq]
    constructor
    · intro hle
      exact Or.inl (by omega)
    · intro hd
      rcases hd with hlt | ⟨heq, _⟩
      · omega
      · exact absurd heq h

theorem jobLe_trans (a b c : PrintJob) : jobLe a b → jobLe b c → jobLe a c := by
  intro h1 h2
  rw [jobLe_iff] at h1 h2 ⊢
  unfold dispatchRespects at h1 h2 ⊢
  omega

theorem jobLe_total (a b : PrintJob) : jobLe a b || jobLe b a := by
  rw [Bool.or_eq_true, jobLe_iff, jobLe_iff]
  unfold dispatchRespects
  omega

/-- C1: every batch returned by `getNextJobs` is ordered by priority rank
descending, and by admission timestamp ascending within equal priority, so
dispatch order respects (priority desc, timestamp asc) lexicographically. -/
theorem getNextJobs_ordered (now : Int) (s : QueueState) (batchSize : Nat) :
    ((getNextJobs now s batchSize).1).Pairwise dispatchRespects := by
  have hsorted :
      (((mapValues s.queue).filter
        (fun j => !(setHas s.processingQueue j.id))).mergeSort jobLe).Pairwise
        (fun a b => jobLe a b = true) :=
    List.sorted_mergeSort jobLe_trans jobLe_total _
  have htake := hsorted.sublist (List.take_sublist batchSize _)
  have hmap : (((((mapValues s.queue).filter
      (fun j => !(setHas s.processingQueue j.id))).mergeSort jobLe).take batchSize).map
        (markProcessing now)).Pairwise dispatchRespects := by
    rw [List.pairwise_map]
    refine htake.imp ?_
    intro a b h
    have := (jobLe_iff a b).mp h
    simpa [dispatchRespects, markProcessing] using this
  exact hmap

/-! ## JsMap lemmas -/

theorem find?_map_set_self {α : Type} (m : JsMap α) (k : String) (v : α) :
    List.find? (fun e => e.1 == k) (m.map (fun e => if e.1 == k then (k, v) else e)) =
      if m.any (fun e => e.1 == k) then some (k, v) else none := by
  induction m with
  | nil => rfl
  | cons x xs ih =>
    rw [List.map_cons]
    by_cases h : x.1 == k
    · rw [if_pos h,
        @List.find?_cons_of_pos _ (fun e => e.1 == k) (k, v)
          (xs.map (fun e => if e.1 == k then (k, v) else e)) (by simp),
        List.any_cons, h]
      simp
    · rw [if_neg h,
        @List.find?_cons_of_neg _ (fun e => e.1 == k) x
          (xs.map (fun e => if e.1 == k then (k, v) else e)) h,
        ih, List.any_cons, Bool.eq_false_iff.mpr h, Bool.false_or]

theorem mapGet?_mapSet_self {α : Type} (m : JsMap α) (k : String) (v : α) :
    mapGet? (mapSet m k v) k = some v := by
  unfold mapSet mapGet?
  by_cases hany : m.any (fun e => e.1 == k)
  · rw [if_pos hany, find?_map_set_self, if_pos hany]
  · rw [if_neg hany, List.find?_append]
    have hnone : List.find? (fun e => e.1 == k) m = none := by
      rw [List.find?_eq_none]
      intro x hx
      intro hxk
      exact hany (List.any_of_mem hx hxk)
    rw [hnone]
    simp

theorem find?_map_set_ne {α : Type} (m : JsMap α) (k k' : String) (v : α)
    (hne : k' ≠ k) :
    List.find? (fun e => e.1 == k') (m.map (fun e => if e.1 == k then (k, v) else e)) =
      List.find? (fun e => e.1 == k') m := by
  induction m with
  | nil => rfl
  | cons x xs ih =>
    rw [List.map_cons]
    by_cases h : x.1 == k
    · have hxk : x.1 = k := by simpa using h
      have hx' : ¬((x.1 == k') = true) := by simp [hxk, Ne.symm hne]
      rw [if_pos h,
        @List.find?_cons_of_neg _ (fun e => e.1 == k') (k, v)
          (xs.map (fun e => if e.1 == k then (k, v) else e)) (by simp [Ne.symm hne]),
        @List.find?_cons_of_neg _ (fun e => e.1 == k') x xs hx', ih]
    · rw [if_neg h]
      by_cases h' : (x.1 == k') = true
      · rw [@List.find?_cons_of_pos _ (fun e => e.1 == k') x
            (xs.map (fun e => if e.1 == k then (k, v) else e)) h',
          @List.find?_cons_of_pos _ (fun e => e.1 == k') x xs h']
      · rw [@List.find?_cons_of_neg _ (fun e => e.1 == k') x
            (xs.map (fun e => if e.1 == k then (k, v) else e)) h',
          @List.find?_cons_of_neg _ (fun e => e.1 == k') x xs h', ih]

theorem mapGet?_mapSet_ne {α : Type} (m : JsMap α) (k k' : String) (v : α)
    (hne : k' ≠ k) : mapGet? (mapSet m k v) k' = mapGet? m k' := by
  unfold mapSet mapGet?
  by_cases hany : m.any (fun e => e.1 == k)
  · rw [if_pos hany, find?_map_set_ne _ _ _ _ hne]
  · rw [if_neg hany, List.find?_append]
    have h1 : List.find? (fun e => e.1 == k') [(k, v)] = none := by
      rw [List.find?_cons_of_neg _ (by simp [Ne.symm hne])]
      rfl
    rw [h1]
    cases List.find? (fun e => e.1 == k') m <;> rfl

theorem length_mapSet {α : Type} (m : JsMap α) (k : String) (v : α) :
    (mapSet m k v).length = if m.any (fun e => e.1 == k) then m.length else m.length + 1 := by
  unfold mapSet
  by_cases hany : m.any (fun e => e.1 == k) <;> simp [hany]

theorem mapGet?_eq_none_iff {α : Type} (m : JsMap α) (k : String) :
    mapGet? m k = none ↔ m.any (fun e => e.1 == k) = false := by
  unfold mapGet?
  constructor
  · intro h
    cases hf : List.find? (fun e => e.1 == k) m with
    | none =>
      rw [List.find?_eq_none] at hf
      simp only [List.any_eq_false]
      intro x hx
      simpa using hf x hx
    | some e => rw [hf] at h; simp at h
  · intro h
    have hf : List.find? (fun e => e.1 == k) m = none := by
      rw [List.find?_eq_none]
      intro x hx
      simp only [List.any_eq_false] at h
      simpa using h x hx
    rw [hf]

/-! ## C2: admission and QueueFull -/

/-- The number of queued (not in-flight) jobs: entries of the `queue` map
whose key is not in `processingQueue`. -/
def queuedCount (s : QueueState) : Nat :=
  (s.queue.filter (fun e => !(setHas s.processingQueue e.1))).length

theorem length_filter_not_add {α : Type} (p : α → Bool) (l : List α) :
    (l.filter (fun a => !(p a))).length + (l.filter p).length = l.length := by
  induction l with
  | nil => rfl
  | cons x xs ih => by_cases h : p x <;> simp [List.filter_cons, h] <;> omega

theorem length_filter_inflight (s : QueueState)
    (hkeys : (s.queue.map Prod.fst).Nodup)
    (hproc : s.processingQueue.Nodup)
    (hsub : ∀ i ∈ s.processingQueue, i ∈ s.queue.map Prod.fst) :
    (s.queue.filter (fun e => setHas s.processingQueue e.1)).length
      = s.processingQueue.length := by
  apply Nat.le_antisymm
  · have h1 : ((s.queue.filter (fun e => setHas s.processingQueue e.1)).map Prod.fst).Nodup := by
      have hsl : List.Sublist
          ((s.queue.filter (fun e => setHas s.processingQueue e.1)).map Prod.fst)
          (s.queue.map Prod.fst) :=
        List.Sublist.map Prod.fst (List.filter_sublist _)
      exact hsl.nodup hkeys
    have h2 : ∀ x ∈ (s.queue.filter (fun e => setHas s.processingQueue e.1)).map Prod.fst,
        x ∈ s.processingQueue := by
      intro x hx
      obtain ⟨e, he, hex⟩ := List.mem_map.mp hx
      have := List.of_mem_filter he
      rw [hex] at this
      simpa [setHas] using this
    have := (List.subperm_of_subset h1 h2).length_le
    simpa using this
  · have h2 : ∀ x ∈ s.processingQueue,
        x ∈ (s.queue.filter (fun e => setHas s.processingQueue e.1)).map Prod.fst := by
      intro x hx
      obtain ⟨e, he, hex⟩ := List.mem_map.mp (hsub x hx)
      refine List.mem_map.mpr ⟨e, ?_, hex⟩
      refine List.mem_filter.mpr ⟨he, ?_⟩
      rw [hex]
      simpa [setHas] using hx
    have := (List.subperm_of_subset hproc h2).length_le
    simpa using this

/-- The queue map holds both queued and in-flight jobs, so its size is
queued + in-flight. -/
theorem mapSize_queue_split (s : QueueState)
    (hkeys : (s.queue.map Prod.fst).Nodup)
    (hproc : s.processingQueue.Nodup)
    (hsub : ∀ i ∈ s.processingQueue, i ∈ s.queue.map Prod.fst) :
    mapSize s.queue = queuedCount s + s.processingQueue.length := by
  unfold mapSize queuedCount
  rw [← length_filter_inflight s hkeys hproc hsub]
  exact (length_filter_not_add (fun e => setHas s.processingQueue e.1) s.queue).symm

/-- C2: `addJob` fails with QueueFull iff queued + in-flight ≥
`maxQueueSize`; a failed admission leaves the state unchanged; otherwise it
returns the request id and enqueues exactly that job. -/
theorem addJob_spec (cfg : PrintingConfig) (s : QueueState) (r : PrintRequest)
    (hkeys : (s.queue.map Prod.fst).Nodup)
    (hproc : s.processingQueue.Nodup)
    (hsub : ∀ i ∈ s.processingQueue, i ∈ s.queue.map Prod.fst)
    (hfresh : mapGet? s.queue r.id = none) :
    ((addJob cfg s r).1 = Except.error "Queue is full" ↔
        queuedCount s + s.processingQueue.length ≥ cfg.maxQueueSize) ∧
    (queuedCount s + s.processingQueue.length ≥ cfg.maxQueueSize →
        (addJob cfg s r).2 = s) ∧
    (queuedCount s + s.processingQueue.length < cfg.maxQueueSize →
        (addJob cfg s r).1 = Except.ok r.id ∧
        mapGet? (addJob cfg s r).2.queue r.id
          = some { id := r.id, status := JobStatus.queued, request := r,
                   startTime := none, endTime := none, error := none } ∧
        (∀ k, k ≠ r.id → mapGet? (addJob cfg s r).2.queue k = mapGet? s.queue k) ∧
        mapSize (addJob cfg s r).2.queue = mapSize s.queue + 1 ∧
        (addJob cfg s r).2.processingQueue = s.processingQueue ∧
        (addJob cfg s r).2.completedJobs = s.completedJobs ∧
        (addJob cfg s r).2.failedJobs = s.failedJobs) := by
  have hsize := mapSize_queue_split s hkeys hproc hsub
  unfold addJob
  by_cases hfull : mapSize s.queue ≥ cfg.maxQueueSize
  · rw [if_pos hfull]
    refine ⟨⟨fun _ => hsize ▸ hfull, fun _ => rfl⟩, fun _ => rfl, fun hlt => absurd hfull ?_⟩
    rw [hsize]
    omega
  · rw [if_neg hfull]
    have hanyF : s.queue.any (fun e => e.1 == r.id) = false :=
      (mapGet?_eq_none_iff s.queue r.id).mp hfresh
    refine ⟨⟨fun h => by simp at h, fun h => absurd (hsize ▸ h) hfull⟩,
      fun h => absurd (hsize ▸ h) hfull, fun _ => ?_⟩
    refine ⟨rfl, mapGet?_mapSet_self _ _ _, fun k hk => mapGet?_mapSet_ne _ _ _ _ hk, ?_, rfl, rfl, rfl⟩
    unfold mapSize
    rw [length_mapSet, if_neg (by rw [hanyF]; simp)]

/-- An empty queue state. -/
def emptyQueueState : QueueState :=
  { queue := [], processingQueue := [], completedJobs := [], failedJobs := [] }

/-- A sample request used by concrete witnesses. -/
def sampleRequest : PrintRequest :=
  { id := "job-1", printerName := "P1",
    metadata := { priority := PrintPriority.medium }, timestamp := 100, retryCount := 0 }

/-- Witness for C2: on the empty queue, admission succeeds and enqueues
exactly the sample job. -/
theorem addJob_spec_witness :
    (addJob defaultPrintingConfig emptyQueueState sampleRequest).1
        = Except.ok sampleRequest.id ∧
    mapSize (addJob defaultPrintingConfig emptyQueueState sampleRequest).2.queue
        = mapSize emptyQueueState.queue + 1 := by
  have h := addJob_spec defaultPrintingConfig emptyQueueState sampleRequest
    (by simp [emptyQueueState]) (by simp [emptyQueueState]) (by simp [emptyQueueState]) rfl
  have hc := h.2.2 (by decide)
  exact ⟨hc.1, hc.2.2.2.1⟩

/-! ## More JsMap / JsSet lemmas -/

theorem mapGet?_mapDelete_self {α : Type} (m : JsMap α) (k : String) :
    mapGet? (mapDelete m k) k = none := by
  unfold mapGet? mapDelete
  have h : List.find? (fun e => e.1 == k) (m.filter (fun e => !(e.1 == k))) = none := by
    rw [List.find?_eq_none]
    intro x hx
    have := (List.mem_filter.mp hx).2
    simp only [Bool.not_eq_true'] at this
    simp [this]
  rw [h]

theorem setHas_setDelete_self (s : JsSet) (k : String) :
    setHas (setDelete s k) k = false := by
  unfold setHas setDelete
  rw [Bool.eq_false_iff]
  intro hc
  have hmem : k ∈ s.filter (fun x => !(x == k)) := by
    have := List.contains_iff_exists_mem_beq.mp hc
    obtain ⟨b, hb, hkb⟩ := this
    have : k = b := by simpa using hkb
    exact this ▸ hb
  have := (List.mem_filter.mp hmem).2
  simp at this

/-! ## C5: retry scheduling with linear backoff -/

/-- C5: a failed job with `retryCount < maxRetries` is rescheduled with the
incremented count after `retryDelay * retryCount` (the new count), and that
delay grows strictly monotonically in the retry count when `retryDelay`
is positive. -/
theorem completeJob_retrySchedule (cfg : PrintingConfig) (now : Int) (s : QueueState)
    (jobId : String) (err : Option String) (job : PrintJob)
    (hjob : mapGet? s.queue jobId = some job)
    (hretry : job.request.retryCount < cfg.maxRetries) :
    (∃ rj, (completeJob cfg now s jobId false err).2
        = some (retryDelayFor cfg (job.request.retryCount + 1), rj) ∧
      rj.request.retryCount = job.request.retryCount + 1 ∧
      rj.id = job.id ∧ rj.status = JobStatus.queued) ∧
    (∀ k₁ k₂ : Nat, 0 < cfg.retryDelay → k₁ < k₂ →
      retryDelayFor cfg k₁ < retryDelayFor cfg k₂) := by
  constructor
  · unfold completeJob
    rw [hjob]
    simp only [Bool.false_eq_true, if_false, hretry, if_true, if_pos hretry]
    exact ⟨_, rfl, rfl, rfl, rfl⟩
  · intro k₁ k₂ hd hk
    unfold retryDelayFor
    have hcast : (k₁ : Int) < (k₂ : Int) := by exact_mod_cast hk
    exact mul_lt_mul_of_pos_left hcast hd

/-- A sample in-flight job used by concrete witnesses. -/
def sampleProcessingJob : PrintJob :=
  { id := "job-1", status := JobStatus.processing, request := sampleRequest,
    startTime := some 200, endTime := none, error := none }

/-- A queue state with the sample job in flight. -/
def inFlightState : QueueState :=
  { queue := [("job-1", sampleProcessingJob)], processingQueue := ["job-1"],
    completedJobs := [], failedJobs := [] }

/-- Witness for C5 on a concrete in-flight job with the default config. -/
theorem completeJob_retrySchedule_witness :
    (∃ rj, (completeJob defaultPrintingConfig 500 inFlightState "job-1" false none).2
        = some (retryDelayFor defaultPrintingConfig 1, rj) ∧
      rj.request.retryCount = 1 ∧
      rj.id = "job-1" ∧ rj.status = JobStatus.queued) ∧
    (∀ k₁ k₂ : Nat, 0 < defaultPrintingConfig.retryDelay → k₁ < k₂ →
      retryDelayFor defaultPrintingConfig k₁ < retryDelayFor defaultPrintingConfig k₂) :=
  completeJob_retrySchedule defaultPrintingConfig 500 inFlightState "job-1" none
    sampleProcessingJob rfl (by decide)

/-! ## C4: unavailable printer at dispatch time -/

/-- `PrinterStatusType` from `src/types`. -/
inductive PrinterStatusType where
  | online
  | offline
  | busy
  | error
deriving DecidableEq, Repr

/-- `PrinterStatus` from `src/types` (the printer registry record). -/
structure PrinterState where
  name : String
  port : String
  driver : String
  status : PrinterStatusType
  jobsInQueue : Nat
  lastJobTime : Option Int
  errorCount : Nat
deriving DecidableEq, Repr

/-- `PrinterService.isOnline` (PrinterService.ts:145-148). -/
def isOnline (printers : JsMap PrinterState) (printerName : String) : Bool :=
  match mapGet? printers printerName with
  | some p => p.status == PrinterStatusType.online
  | none => false

/-- `PrintService.processJob` (PrintService.ts:70-104), restricted to its
effect on the queue state.  `printOutcome` stands for the result of the
`printerService.printLabel` call; when the printer is not online the code
throws `Printer <name> is not available` and the catch block calls
`completeJob(id, false, message)`.  The `updateJobCount` calls touch only
the printer registry record and are not part of the queue effect. -/
def processJob (cfg : PrintingConfig) (now : Int) (printers : JsMap PrinterState)
    (printOutcome : Except String Unit) (s : QueueState) (job : PrintJob) :
    QueueState × Option (Int × PrintJob) :=
  if isOnline printers job.request.printerName then
    match printOutcome with
    | Except.ok _ => completeJob cfg now s job.id true none
    | Except.error e => completeJob cfg now s job.id false (some e)
  else
    completeJob cfg now s job.id false
      (some ("Printer " ++ job.request.printerName ++ " is not available"))

/-- Counterexample to C4: with no printers registered and default config
(`maxRetries` 3), dispatching the sample in-flight job does NOT put it in
the failed-retained map; instead a retry is scheduled after 2000 ms with
`retryCount` incremented to 1 — the unavailable-printer failure consumes a
retry and re-queues. -/
theorem processJob_unavailable_is_retried :
    (processJob defaultPrintingConfig 500 [] (Except.ok ()) inFlightState
        sampleProcessingJob).1.failedJobs = [] ∧
    (processJob defaultPrintingConfig 500 [] (Except.ok ()) inFlightState
        sampleProcessingJob).2 =
      some (2000,
        { id := "job-1", status := JobStatus.queued,
          request := { sampleRequest with retryCount := 1 },
          startTime := some 200, endTime := some 500,
          error := some "Printer P1 is not available" }) := by
  constructor
  · rfl
  · rfl

/-- C4 (amended): when the job's printer is not online at dispatch time,
`processJob` fails the job through the ordinary failure path of
`completeJob`: while `retryCount < maxRetries` it consumes a retry and
schedules re-admission (the job is NOT placed in failed-retained); only
with retries exhausted does it go to the failed-retained map. -/
theorem processJob_unavailable_spec (cfg : PrintingConfig) (now : Int)
    (printers : JsMap PrinterState) (po : Except String Unit)
    (s : QueueState) (job : PrintJob)
    (hoff : isOnline printers job.request.printerName = false)
    (hjob : mapGet? s.queue job.id = some job) :
    processJob cfg now printers po s job
      = completeJob cfg now s job.id false
          (some ("Printer " ++ job.request.printerName ++ " is not available")) ∧
    (job.request.retryCount < cfg.maxRetries →
      (processJob cfg now printers po s job).1.failedJobs = s.failedJobs ∧
      ∃ rj, (processJob cfg now printers po s job).2
          = some (retryDelayFor cfg (job.request.retryCount + 1), rj) ∧
        rj.request.retryCount = job.request.retryCount + 1) ∧
    (cfg.maxRetries ≤ job.request.retryCount →
      (processJob cfg now printers po s job).2 = none ∧
      mapGet? (processJob cfg now printers po s job).1.failedJobs job.id
        = some { job with
            endTime := some now,
            status := JobStatus.failed,
            error := if ("Printer " ++ job.request.printerName
                ++ " is not available") = "" then job.error
              else some ("Printer " ++ job.request.printerName ++ " is not available") }) := by
  have hred : processJob cfg now printers po s job
      = completeJob cfg now s job.id false
          (some ("Printer " ++ job.request.printerName ++ " is not available")) := by
    unfold processJob
    rw [if_neg (by simp [hoff])]
  refine ⟨hred, ?_, ?_⟩
  · intro hretry
    rw [hred]
    unfold completeJob
    rw [hjob]
    simp only [Bool.false_eq_true, if_false, if_pos hretry]
    exact ⟨trivial, _, rfl, rfl⟩
  · intro hexh
    rw [hred]
    unfold completeJob
    rw [hjob]
    simp only [Bool.false_eq_true, if_false, if_neg (Nat.not_lt.mpr hexh)]
    exact ⟨trivial, mapGet?_mapSet_self _ _ _⟩

/-- Witness for C4 (amended) on the concrete in-flight sample job. -/
theorem processJob_unavailable_spec_witness :
    processJob defaultPrintingConfig 500 [] (Except.ok ()) inFlightState sampleProcessingJob
      = completeJob defaultPrintingConfig 500 inFlightState "job-1" false
          (some "Printer P1 is not available") := by
  have h := processJob_unavailable_spec defaultPrintingConfig 500 [] (Except.ok ())
    inFlightState sampleProcessingJob rfl rfl
  exact h.1

/-! ## C8: collection membership over the job lifecycle -/

/-- Counterexample to C8: immediately after a retryable failure
(`completeJob(id, false)` with `retryCount < maxRetries`), the job is in
none of the four collections — `getJob` returns `undefined` for a live job
whose re-admission is still pending. -/
theorem retryWindow_job_in_no_collection :
    getJob (completeJob defaultPrintingConfig 500 inFlightState "job-1" false none).1
        "job-1" = none ∧
    mapGet? (completeJob defaultPrintingConfig 500 inFlightState "job-1" false none).1.queue
        "job-1" = none ∧
    setHas (completeJob defaultPrintingConfig 500 inFlightState "job-1" false
        none).1.processingQueue "job-1" = false ∧
    mapGet? (completeJob defaultPrintingConfig 500 inFlightState "job-1" false
        none).1.completedJobs "job-1" = none ∧
    mapGet? (completeJob defaultPrintingConfig 500 inFlightState "job-1" false
        none).1.failedJobs "job-1" = none ∧
    (completeJob defaultPrintingConfig 500 inFlightState "job-1" false none).2 ≠ none := by
  decide

/-- C8 (amended): `completeJob` moves a found job out of `queue` and
`processingQueue`; on success it is retained in exactly the completed map;
on a final failure in exactly the failed map; but on a retryable failure it
is in NO collection (`getJob` returns `undefined`) until the scheduled
re-admission puts it back into the queue. -/
theorem completeJob_partition (cfg : PrintingConfig) (now : Int) (s : QueueState)
    (jobId : String) (success : Bool) (err : Option String) (job : PrintJob)
    (hjob : mapGet? s.queue jobId = some job)
    (hid : job.id = jobId)
    (hcomp : mapGet? s.completedJobs jobId = none)
    (hfail : mapGet? s.failedJobs jobId = none) :
    mapGet? (completeJob cfg now s jobId success err).1.queue jobId = none ∧
    setHas (completeJob cfg now s jobId success err).1.processingQueue jobId = false ∧
    (success = true →
      mapGet? (completeJob cfg now s jobId success err).1.completedJobs jobId ≠ none ∧
      mapGet? (completeJob cfg now s jobId success err).1.failedJobs jobId = none ∧
      (completeJob cfg now s jobId success err).2 = none) ∧
    (success = false → job.request.retryCount < cfg.maxRetries →
      mapGet? (completeJob cfg now s jobId success err).1.completedJobs jobId = none ∧
      mapGet? (completeJob cfg now s jobId success err).1.failedJobs jobId = none ∧
      getJob (completeJob cfg now s jobId success err).1 jobId = none ∧
      ∃ d rj, (completeJob cfg now s jobId success err).2 = some (d, rj) ∧
        rj.id = jobId ∧
        mapGet? (applyRetry (completeJob cfg now s jobId success err).1 rj).queue jobId
          = some rj) ∧
    (success = false → cfg.maxRetries ≤ job.request.retryCount →
      mapGet? (completeJob cfg now s jobId success err).1.failedJobs jobId ≠ none ∧
      mapGet? (completeJob cfg now s jobId success err).1.completedJobs jobId = none ∧
      (completeJob cfg now s jobId success err).2 = none) := by
  unfold completeJob
  rw [hjob]
  by_cases hsucc : success = true
  · subst hsucc
    simp only [eq_self_iff_true, if_true]
    refine ⟨mapGet?_mapDelete_self _ _, setHas_setDelete_self _ _, ?_, ?_, ?_⟩
    · intro _
      refine ⟨?_, hfail, trivial⟩
      rw [mapGet?_mapSet_self]
      simp
    · intro h
      simp at h
    · intro h
      simp at h
  · have hsf : success = false := by
      cases success
      · rfl
      · exact absurd rfl hsucc
    subst hsf
    simp only [Bool.false_eq_true, if_false]
    by_cases hretry : job.request.retryCount < cfg.maxRetries
    · rw [if_pos hretry]
      refine ⟨mapGet?_mapDelete_self _ _, setHas_setDelete_self _ _, ?_, ?_, ?_⟩
      · intro h
        simp at h
      · intro _ _
        refine ⟨hcomp, hfail, ?_, ?_⟩
        · unfold getJob
          rw [mapGet?_mapDelete_self]
          rw [hcomp, hfail]
        · refine ⟨_, _, rfl, hid, ?_⟩
          unfold applyRetry
          simp only
          rw [show ({ job with
              endTime := some now,
              error := match err with
                | some e => if e = "" then job.error else some e
                | none => job.error,
              request := { job.request with retryCount := job.request.retryCount + 1 },
              status := JobStatus.queued } : PrintJob).id = jobId from hid]
          rw [← hid]
          exact mapGet?_mapSet_self _ _ _
      · intro _ hexh
        omega
    · rw [if_neg hretry]
      refine ⟨mapGet?_mapDelete_self _ _, setHas_setDelete_self _ _, ?_, ?_, ?_⟩
      · intro h
        simp at h
      · intro _ h
        omega
      · intro _ _
        refine ⟨?_, hcomp, rfl⟩
        rw [mapGet?_mapSet_self]
        simp

/-- Witness for C8 (amended): the partition facts at a concrete successful
completion. -/
theorem completeJob_partition_witness :
    mapGet? (completeJob defaultPrintingConfig 500 inFlightState "job-1" true
        none).1.queue "job-1" = none ∧
    setHas (completeJob defaultPrintingConfig 500 inFlightState "job-1" true
        none).1.processingQueue "job-1" = false ∧
    mapGet? (completeJob defaultPrintingConfig 500 inFlightState "job-1" true
        none).1.completedJobs "job-1" ≠ none := by
  have h := completeJob_partition defaultPrintingConfig 500 inFlightState "job-1" true
    none sampleProcessingJob rfl rfl rfl rfl
  exact ⟨h.1, h.2.1, (h.2.2.1 rfl).1⟩

/-! ## C7: retention caps -/

theorem strContains_iff {l : List String} {a : String} : l.contains a = true ↔ a ∈ l := by
  simp [List.contains_iff_exists_mem_beq]

theorem foldl_mapDelete {α : Type} (ds : List (String × α)) (m : JsMap α) :
    ds.foldl (fun acc e => mapDelete acc e.1) m
      = m.filter (fun e => !((ds.map Prod.fst).contains e.1)) := by
  induction ds generalizing m with
  | nil => simp
  | cons d ds ih =>
    rw [List.foldl_cons, ih]
    unfold mapDelete
    rw [List.filter_filter]
    congr 1
    funext e
    simp [List.contains_cons, Bool.not_or, Bool.and_comm]

theorem cleanupMap_length_le (cap : Nat) (m : JsMap PrintJob)
    (hm : (m.map Prod.fst).Nodup) : (cleanupMap cap m).length ≤ cap ∨
      (cleanupMap cap m = m ∧ m.length ≤ cap) := by
  unfold cleanupMap
  split
  · rename_i hgt
    left
    rw [foldl_mapDelete]
    have hmn : m.Nodup := List.Nodup.of_map _ hm
    have hnodup : (m.filter (fun e =>
        !((((m.mergeSort (fun a b => decide (endTimeOrZero b.2 ≤ endTimeOrZero a.2))).drop
          cap).map Prod.fst).contains e.1))).Nodup :=
      (List.filter_sublist m).nodup hmn
    have hsub : ∀ e ∈ m.filter (fun e =>
        !((((m.mergeSort (fun a b => decide (endTimeOrZero b.2 ≤ endTimeOrZero a.2))).drop
          cap).map Prod.fst).contains e.1)),
        e ∈ (m.mergeSort (fun a b => decide (endTimeOrZero b.2 ≤ endTimeOrZero a.2))).take cap := by
      intro e he
      have hmem := (List.mem_filter.mp he).1
      have hcond := (List.mem_filter.mp he).2
      have hin : e ∈ m.mergeSort (fun a b => decide (endTimeOrZero b.2 ≤ endTimeOrZero a.2)) :=
        List.mem_mergeSort.mpr hmem
      rw [← List.take_append_drop cap
        (m.mergeSort (fun a b => decide (endTimeOrZero b.2 ≤ endTimeOrZero a.2)))] at hin
      rcases List.mem_append.mp hin with h | h
      · exact h
      · exfalso
        have hk : e.1 ∈ (((m.mergeSort (fun a b =>
            decide (endTimeOrZero b.2 ≤ endTimeOrZero a.2))).drop cap).map Prod.fst) :=
          List.mem_map_of_mem Prod.fst h
        rw [strContains_iff.mpr hk] at hcond
        simp at hcond
    have hle := (List.subperm_of_subset hnodup hsub).length_le
    refine hle.trans ?_
    rw [List.length_take]
    exact Nat.min_le_left _ _
  · rename_i hle
    right
    exact ⟨rfl, by omega⟩

/-- C7 (amended): `completeJob` itself performs no eviction; the caps are
enforced only by the separate `cleanup` method, which caps completed
retention at 1000 and failed retention at 500, evicting oldest by end
time. -/
theorem cleanup_enforces_caps (s : QueueState)
    (hc : (s.completedJobs.map Prod.fst).Nodup)
    (hf : (s.failedJobs.map Prod.fst).Nodup) :
    mapSize (cleanup s).completedJobs ≤ 1000 ∧
    mapSize (cleanup s).failedJobs ≤ 500 := by
  unfold cleanup mapSize
  have h1 := cleanupMap_length_le 1000 s.completedJobs hc
  have h2 := cleanupMap_length_le 500 s.failedJobs hf
  rcases h1 with h1 | ⟨he1, hl1⟩ <;> rcases h2 with h2 | ⟨he2, hl2⟩ <;>
    simp_all

/-- A completed-retention map already holding 1000 entries with distinct
keys `c0` … `c999`. -/
def bigCompleted : JsMap PrintJob :=
  (List.range 1000).map (fun i => ("c" ++ toString i, sampleProcessingJob))

/-- The job whose completion will be inserted into the full retention map. -/
def overflowJob : PrintJob :=
  { id := "", status := JobStatus.processing,
    request := { sampleRequest with id := "" },
    startTime := some 200, endTime := none, error := none }

/-- A queue state whose completed-retention map is exactly at the 1000 cap. -/
def overflowState : QueueState :=
  { queue := [("", overflowJob)], processingQueue := [""],
    completedJobs := bigCompleted, failedJobs := [] }

set_option maxRecDepth 10000 in
/-- Counterexample to C7: `completeJob` inserts into the completed map with
no eviction, so from a state at the 1000 cap one successful completion
leaves 1001 retained completed jobs (the eviction lives only in the
separate `cleanup` method, which `completeJob` never calls). -/
theorem completeJob_no_eviction_on_insert :
    mapSize (completeJob defaultPrintingConfig 600 overflowState "" true
      none).1.completedJobs = 1001 := by
  have hany : bigCompleted.any (fun e => e.1 == "") = false := by
    rw [List.any_eq_false]
    intro e he
    obtain ⟨i, hi, rfl⟩ := List.mem_map.mp he
    simp only [beq_iff_eq]
    intro hcon
    have hlen := congrArg String.length hcon
    simp [String.length_append] at hlen
    exact absurd hlen.1 (by decide)
  have hget : mapGet? overflowState.queue "" = some overflowJob := rfl
  unfold completeJob
  rw [hget]
  simp only [eq_self_iff_true, if_true]
  dsimp only [overflowState]
  unfold mapSize
  rw [length_mapSet, if_neg (by rw [hany]; simp)]
  simp [bigCompleted]

/-- Witness for C7 (amended): the caps hold after `cleanup` on a concrete
state. -/
theorem cleanup_enforces_caps_witness :
    mapSize (cleanup inFlightState).completedJobs ≤ 1000 ∧
    mapSize (cleanup inFlightState).failedJobs ≤ 500 :=
  cleanup_enforces_caps inFlightState (by simp [inFlightState])
    (by simp [inFlightState])

/-! ## C6: circuit breaker -/

/-- `CircuitState` from `src/utils/circuitBreaker.ts`. -/
inductive CircuitState where
  | CLOSED
  | OPEN
  | HALF_OPEN
deriving DecidableEq, Repr

/-- `CircuitBreakerOptions` (defaults: threshold 5, reset 60000 ms,
monitoring period 300000 ms, success threshold 3). -/
structure CircuitBreakerOptions where
  failureThreshold : Nat
  resetTimeout : Int
  monitoringPeriod : Int
  successThreshold : Nat
deriving DecidableEq, Repr

/-- The default breaker options (circuitBreaker.ts:41-47). -/
def defaultBreakerOptions : CircuitBreakerOptions :=
  { failureThreshold := 5, resetTimeout := 60000,
    monitoringPeriod := 300000, successThreshold := 3 }

/-- The mutable fields of `CircuitBreaker` (circuitBreaker.ts:29-37). -/
structure Breaker where
  state : CircuitState
  failureCount : Nat
  successCount : Nat
  lastFailureTime : Option Int
  lastSuccessTime : Option Int
  totalRequests : Nat
  totalFailures : Nat
  totalSuccesses : Nat
  nextAttempt : Int
deriving DecidableEq, Repr

/-- A freshly constructed breaker. -/
def initialBreaker : Breaker :=
  { state := CircuitState.CLOSED, failureCount := 0, successCount := 0,
    lastFailureTime := none, lastSuccessTime := none,
    totalRequests := 0, totalFailures := 0, totalSuccesses := 0, nextAttempt := 0 }

/-- `CircuitBreaker.open` (circuitBreaker.ts:112-115). -/
def Breaker.openCircuit (opts : CircuitBreakerOptions) (now : Int) (b : Breaker) : Breaker :=
  { b with state := CircuitState.OPEN, nextAttempt := now + opts.resetTimeout }

/-- `CircuitBreaker.reset` (circuitBreaker.ts:117-122). -/
def Breaker.resetCircuit (b : Breaker) : Breaker :=
  { b with
    state := CircuitState.CLOSED, failureCount := 0, successCount := 0,
    nextAttempt := 0 }

/-- `CircuitBreaker.onSuccess` (circuitBreaker.ts:73-87). -/
def Breaker.onSuccess (opts : CircuitBreakerOptions) (now : Int) (b : Breaker) : Breaker :=
  let b := { b with lastSuccessTime := some now, totalSuccesses := b.totalSuccesses + 1 }
  match b.state with
  | CircuitState.HALF_OPEN =>
    let b := { b with successCount := b.successCount + 1 }
    if b.successCount ≥ opts.successThreshold then b.resetCircuit else b
  | CircuitState.CLOSED => { b with failureCount := 0 }
  | CircuitState.OPEN => b

/-- `CircuitBreaker.onFailure` (circuitBreaker.ts:89-110).  Note the
source sets `lastFailureTime = Date.now()` first (line 90), so the
stale-failure check at lines 100-103 compares the just-updated time; the
JS truthiness of `this.lastFailureTime` is the `t ≠ 0` test. -/
def Breaker.onFailure (opts : CircuitBreakerOptions) (now : Int) (b : Breaker) : Breaker :=
  let b := { b with
    lastFailureTime := some now, totalFailures := b.totalFailures + 1,
    failureCount := b.failureCount + 1 }
  match b.state with
  | CircuitState.HALF_OPEN => b.openCircuit opts now
  | CircuitState.CLOSED =>
    let monitoringWindow := now - opts.monitoringPeriod
    let b := match b.lastFailureTime with
      | some t => if t ≠ 0 ∧ t < monitoringWindow then { b with failureCount := 1 } else b
      | none => b
    if b.failureCount ≥ opts.failureThreshold then b.openCircuit opts now else b
  | CircuitState.OPEN => b

/-- `CircuitBreaker.execute` (circuitBreaker.ts:49-71): the open-state
gate, the open→half-open transition, and the success/failure accounting.
`opSucceeds` stands for whether the wrapped operation resolves; the
returned flag is `none` when the call is rejected while open. -/
def Breaker.executeStep (opts : CircuitBreakerOptions) (now : Int) (opSucceeds : Bool)
    (b : Breaker) : Option Bool × Breaker :=
  let b := { b with totalRequests := b.totalRequests + 1 }
  if b.state = CircuitState.OPEN ∧ now < b.nextAttempt then
    (none, b)
  else
    let b := if b.state = CircuitState.OPEN then
        { b with state := CircuitState.HALF_OPEN, successCount := 0 }
      else b
    if opSucceeds then (some true, b.onSuccess opts now)
    else (some false, b.onFailure opts now)

/-- Run a breaker over a sequence of timed call outcomes. -/
def runBreaker (opts : CircuitBreakerOptions) (events : List (Int × Bool))
    (b : Breaker) : Breaker :=
  events.foldl (fun b e => (Breaker.executeStep opts e.1 e.2 b).2) b

/-- C6 (code bug): four failures at t = 1000 followed by one failure at
t = 1000000 — far outside the 5-minute monitoring window — still OPEN the
breaker, because `onFailure` overwrites `lastFailureTime` with the current
time before the staleness check, making the decay branch dead code.  Under
the spec (and the source's own comment "Clean up old failures outside
monitoring period") the count would have been reset to 1 and the breaker
would stay CLOSED. -/
theorem circuitBreaker_counts_stale_failures :
    (runBreaker defaultBreakerOptions
      [(1000, false), (1000, false), (1000, false), (1000, false), (1000000, false)]
      initialBreaker).state = CircuitState.OPEN ∧
    1000000 - 1000 > defaultBreakerOptions.monitoringPeriod := by
  constructor
  · rfl
  · decide

/-! ## C3: the per-copy print loop -/

/-- The copy loop shared by `printWithPuppeteer` (PrinterService.ts:320-361)
and `printWithWkhtmltopdf` (PrinterService.ts:558-575): copies are produced
one at a time with `await` in a `for` loop, and the first copy whose
render/spool throws aborts the whole method with that error.  `ok i` is the
outcome of copy index `i` (0-based); the result is `Except.error i` for the
first failing copy. -/
def runCopiesFrom (ok : Nat → Bool) : Nat → Nat → Except Nat Unit
  | _, 0 => Except.ok ()
  | i, n + 1 => if ok i then runCopiesFrom ok (i + 1) n else Except.error i

/-- Run the sequential copy loop for `copies` copies starting at index 0. -/
def runCopies (ok : Nat → Bool) (copies : Nat) : Except Nat Unit :=
  runCopiesFrom ok 0 copies

/-- The spec's partial-success policy (§4.E step 5), modelled from the
spec's words for comparison: the job would be completed iff the number of
successful copies over ALL copies is at least ⌈copies/2⌉. -/
def specPartialSuccessCompleted (ok : Nat → Bool) (copies : Nat) : Bool :=
  decide (((List.range copies).countP ok) ≥ (copies + 1) / 2)

/-- Counterexample to C3: with 2 copies where copy 0 succeeds and copy 1
fails, the code aborts with the copy-1 error and the job is marked failed,
although the spec's ⌈copies/2⌉ threshold (1 success ≥ 1) would mark it
completed. -/
theorem copyLoop_no_partial_success :
    runCopies (fun i => i == 0) 2 = Except.error 1 ∧
    specPartialSuccessCompleted (fun i => i == 0) 2 = true := by
  constructor
  · rfl
  · rfl

/-- C3 (amended): the dispatcher renders and spools copies sequentially,
not in parallel; the loop succeeds iff every copy succeeds, and otherwise
it stops at the first failing copy (no later copy is attempted and the
⌈copies/2⌉ partial-success policy does not exist in the code). -/
theorem copyLoop_spec (ok : Nat → Bool) (copies : Nat) :
    (runCopies ok copies = Except.ok () ↔ ∀ i, i < copies → ok i = true) ∧
    (∀ j, runCopies ok copies = Except.error j →
      j < copies ∧ ok j = false ∧ ∀ i, i < j → ok i = true) := by
  have key : ∀ (n start : Nat),
      (runCopiesFrom ok start n = Except.ok () ↔
        ∀ i, start ≤ i → i < start + n → ok i = true) ∧
      (∀ j, runCopiesFrom ok start n = Except.error j →
        start ≤ j ∧ j < start + n ∧ ok j = false ∧
          ∀ i, start ≤ i → i < j → ok i = true) := by
    intro n
    induction n with
    | zero =>
      intro start
      constructor
      · constructor
        · intro _ i h1 h2
          omega
        · intro _
          rfl
      · intro j h
        simp [runCopiesFrom] at h
    | succ n ih =>
      intro start
      constructor
      · constructor
        · intro h i h1 h2
          unfold runCopiesFrom at h
          by_cases hs : ok start = true
          · rw [if_pos hs] at h
            rcases Nat.eq_or_lt_of_le h1 with rfl | hlt
            · exact hs
            · exact ((ih (start + 1)).1.mp h) i hlt (by omega)
          · rw [if_neg hs] at h
            simp at h
        · intro hall
          unfold runCopiesFrom
          rw [if_pos (hall start (Nat.le_refl _) (by omega))]
          exact (ih (start + 1)).1.mpr (fun i h1 h2 => hall i (by omega) (by omega))
      · intro j h
        unfold runCopiesFrom at h
        by_cases hs : ok start = true
        · rw [if_pos hs] at h
          obtain ⟨hj1, hj2, hj3, hj4⟩ := (ih (start + 1)).2 j h
          refine ⟨by omega, by omega, hj3, ?_⟩
          intro i hi1 hi2
          rcases Nat.eq_or_lt_of_le hi1 with rfl | hlt
          · exact hs
          · exact hj4 i hlt hi2
        · rw [if_neg hs] at h
          simp at h
          subst h
          exact ⟨Nat.le_refl _, by omega, by simpa using hs, fun i h1 h2 => by omega⟩
  constructor
  · rw [show runCopies ok copies = runCopiesFrom ok 0 copies from rfl]
    rw [(key copies 0).1]
    constructor
    · intro h i hi
      exact h i (Nat.zero_le _) (by omega)
    · intro h i _ hi
      exact h i (by omega)
  · intro j h
    obtain ⟨h1, h2, h3, h4⟩ := (key copies 0).2 j h
    exact ⟨by omega, h3, fun i hi => h4 i (Nat.zero_le _) hi⟩

/-- Witness for C3 (amended) at `copies = 3` with copy 1 failing: the loop
stops at copy 1, which indeed failed, after copy 0 succeeded. -/
theorem copyLoop_spec_witness :
    1 < 3 ∧ (fun i : Nat => i == 0) 1 = false ∧
      (∀ i, i < 1 → (fun i : Nat => i == 0) i = true) :=
  (copyLoop_spec (fun i => i == 0) 3).2 1 rfl

/-! ## C9: temp file names -/

/-- The PDF temp file name of the Puppeteer path
(PrinterService.ts:326-327): `conservative_<Date.now()>_<copy index + 1>.pdf`
— a pure function of the millisecond timestamp and the copy index, with no
random component. -/
def puppeteerPdfFileName (timestamp : Nat) (i : Nat) : String :=
  "conservative_" ++ toString timestamp ++ "_" ++ toString (i + 1) ++ ".pdf"

/-- The HTML temp file name of the wkhtmltopdf path
(PrinterService.ts:582-584): `temp_<Date.now()>_<randomId>.html`, where
`randomId = Math.random().toString(36).substr(2, 9)` is at most 9 base-36
characters. -/
def wkTempFileName (timestamp : Nat) (randomId : String) : String :=
  "temp_" ++ toString timestamp ++ "_" ++ randomId ++ ".html"

/-- For C9: the Puppeteer path name evaluated at the failing input — any
two concurrent jobs hitting the same millisecond and copy index compute
this same deterministic name — and the wkhtmltopdf random suffix space
(9 base-36 characters) is below the claimed 48-bit entropy floor. -/
theorem tempFileName_collision :
    puppeteerPdfFileName 1700000000000 0 = "conservative_1700000000000_1.pdf" ∧
    (36 : Nat) ^ 9 < 2 ^ 48 := by
  constructor
  · rfl
  · decide

/-- Distinct random suffixes do give distinct wkhtmltopdf names (the part
of the collision-avoidance scheme that does exist in the code). -/
theorem wkTempFileName_suffix_inj (t : Nat) (r₁ r₂ : String)
    (h : wkTempFileName t r₁ = wkTempFileName t r₂) : r₁ = r₂ := by
  unfold wkTempFileName at h
  have hd := congrArg String.data h
  simp only [String.data_append, List.append_assoc] at hd
  have h1 := List.append_cancel_left hd
  have h2 := List.append_cancel_left h1
  have h3 := List.append_cancel_left h2
  have h4 := List.append_cancel_right h3
  exact congrArg String.mk h4

/-! ## C10: `enhanceHtmlForPrinting` -/

/-- The injected print CSS block (PrinterService.ts:652-660), character for
character (braces written with escapes). -/
def printCss : String :=
  "\n    <style>\n      @media print \x7b\n        body \x7b margin: 0; padding: 0; \x7d\n        @page \x7b margin: 0; size: auto; \x7d\n        * \x7b -webkit-print-color-adjust: exact !important; color-adjust: exact !important; \x7d\n      \x7d\n    </style>\n  "

/-- `String.prototype.toLowerCase` restricted to the basic-latin mapping
used by the checks in the source. -/
def lowerStr (l : List Char) : List Char :=
  l.map Char.toLower

/-- `String.prototype.includes`: substring test. -/
def strIncludes (s pat : List Char) : Bool :=
  match s with
  | [] => pat.isEmpty
  | _ :: rest => (decide (s.take pat.length = pat)) || strIncludes rest pat

def mediaPrintPat : List Char := "@media print".data

def pagePat : List Char := "@page".data

def headClosePat : List Char := "</head>".data

def htmlTagPat : List Char := "<html>".data

def htmlOpenPat : List Char := "<html".data

def printCssL : List Char := printCss.data

/-- `html.replace(/<\/head>/i, repl)` for the literal case-insensitive
pattern: replace the first case-insensitive occurrence, or return the
input unchanged when there is none. -/
def replaceOnceCI (pat repl : List Char) : List Char → List Char
  | [] => []
  | c :: cs =>
    if lowerStr ((c :: cs).take pat.length) = pat then
      repl ++ (c :: cs).drop pat.length
    else
      c :: replaceOnceCI pat repl cs

/-- Scan to the first `>` inclusive: `[^>]*>` after the `<html` prefix. -/
def splitAtGt : List Char → Option (List Char × List Char)
  | [] => none
  | c :: cs =>
    if c = '>' then some ([c], cs)
    else
      match splitAtGt cs with
      | some (m, r) => some (c :: m, r)
      | none => none

/-- `html.replace(/<html[^>]*>/i, m + repl)`: find the first
case-insensitive `<html`, extend the match through the first following
`>`, and insert `repl` after the matched tag (`$&` keeps the match). -/
def replaceHtmlOpenCI (repl : List Char) : List Char → List Char
  | [] => []
  | c :: cs =>
    if lowerStr ((c :: cs).take 5) = htmlOpenPat then
      match splitAtGt ((c :: cs).drop 5) with
      | some (m, r) => (c :: cs).take 5 ++ m ++ repl ++ r
      | none => c :: replaceHtmlOpenCI repl cs
    else c :: replaceHtmlOpenCI repl cs

/-- The guard of PrinterService.ts:663: the html already carries print
styles. -/
def hasPrintMarker (html : List Char) : Bool :=
  strIncludes (lowerStr html) mediaPrintPat || strIncludes (lowerStr html) pagePat

/-- `PrinterService.enhanceHtmlForPrinting` (PrinterService.ts:650-675). -/
def enhanceHtmlForPrinting (html : List Char) : List Char :=
  if !(strIncludes (lowerStr html) mediaPrintPat)
      && !(strIncludes (lowerStr html) pagePat) then
    if strIncludes (lowerStr html) headClosePat then
      replaceOnceCI headClosePat (printCssL ++ headClosePat) html
    else if strIncludes (lowerStr html) htmlTagPat then
      replaceHtmlOpenCI printCssL html
    else
      printCssL ++ html
  else html

/-! ## C10 proofs -/

theorem strIncludes_iff (pat : List Char) :
    ∀ s : List Char, strIncludes s pat = true ↔ List.IsInfix pat s
  | [] => by
    rw [show strIncludes [] pat = pat.isEmpty from rfl]
    rw [List.isEmpty_iff]
    constructor
    · intro h
      rw [h]
    · intro h
      have := List.eq_nil_of_infix_nil h
      rw [this]
  | c :: cs => by
    rw [show strIncludes (c :: cs) pat
        = ((decide ((c :: cs).take pat.length = pat)) || strIncludes cs pat) from rfl]
    rw [Bool.or_eq_true, decide_eq_true_iff, strIncludes_iff pat cs, List.infix_cons_iff]
    constructor
    · rintro (h | h)
      · exact Or.inl (List.prefix_iff_eq_take.mpr h.symm)
      · exact Or.inr h
    · rintro (h | h)
      · exact Or.inl (List.prefix_iff_eq_take.mp h).symm
      · exact Or.inr h

theorem marker_of_printCss_within (l : List Char)
    (h : List.IsInfix printCssL l) :
    strIncludes (lowerStr l) mediaPrintPat = true := by
  have h1 : List.IsInfix (lowerStr printCssL) (lowerStr l) :=
    List.IsInfix.map Char.toLower h
  have h2 : List.IsInfix mediaPrintPat (lowerStr printCssL) :=
    (strIncludes_iff mediaPrintPat (lowerStr printCssL)).mp (by rfl)
  exact (strIncludes_iff mediaPrintPat (lowerStr l)).mpr (h2.trans h1)

theorem repl_infix_replaceOnceCI (pat repl : List Char) (hne : pat ≠ [])
    (s : List Char) (h : strIncludes (lowerStr s) pat = true) :
    List.IsInfix repl (replaceOnceCI pat repl s) := by
  induction s with
  | nil =>
    exfalso
    rw [show strIncludes (lowerStr []) pat = pat.isEmpty from rfl,
      List.isEmpty_iff] at h
    exact hne h
  | cons c cs ih =>
    unfold replaceOnceCI
    by_cases ht : lowerStr ((c :: cs).take pat.length) = pat
    · rw [if_pos ht]
      exact ⟨[], (c :: cs).drop pat.length, by simp⟩
    · rw [if_neg ht]
      refine List.infix_cons (ih ?_)
      rw [show strIncludes (lowerStr (c :: cs)) pat
          = ((decide ((lowerStr (c :: cs)).take pat.length = pat))
            || strIncludes (lowerStr cs) pat) from rfl, Bool.or_eq_true] at h
      rcases h with h | h
      · exfalso
        rw [decide_eq_true_iff] at h
        apply ht
        simp only [lowerStr] at h ⊢
        rw [List.map_take]
        exact h
      · exact h

theorem toLower_eq_gt {ch : Char} (h : Char.toLower ch = '>') : ch = '>' := by
  simp only [Char.toLower] at h
  split at h
  · rename_i hcond
    exfalso
    obtain ⟨h1, h2⟩ := hcond
    generalize hn : Char.toNat ch = n at h1 h2 h
    interval_cases n <;> exact absurd h (by decide)
  · exact h

theorem splitAtGt_none {l : List Char} (h : splitAtGt l = none) : '>' ∉ l := by
  induction l with
  | nil => simp
  | cons c cs ih =>
    unfold splitAtGt at h
    by_cases hc : c = '>'
    · rw [if_pos hc] at h
      simp at h
    · rw [if_neg hc] at h
      cases hs : splitAtGt cs with
      | some mr =>
        obtain ⟨m, r⟩ := mr
        rw [hs] at h
        simp at h
      | none =>
        simp only [List.mem_cons]
        rintro (h1 | h1)
        · exact hc h1.symm
        · exact (ih hs) h1

theorem headTest6 {l : List Char}
    (h : (lowerStr l).take htmlTagPat.length = htmlTagPat) :
    lowerStr (l.take 6) = htmlTagPat := by
  simp only [lowerStr] at h ⊢
  rw [show htmlTagPat.length = 6 from rfl] at h
  rw [List.map_take]
  exact h

theorem take5_of_take6 {l : List Char} (h : lowerStr (l.take 6) = htmlTagPat) :
    lowerStr (l.take 5) = htmlOpenPat := by
  have h5 := congrArg (List.take 5) h
  rw [show htmlTagPat.take 5 = htmlOpenPat from rfl] at h5
  simp only [lowerStr] at h5 ⊢
  rw [← List.map_take, List.take_take] at h5
  rw [show (min 5 6 : Nat) = 5 from rfl] at h5
  exact h5

theorem splitAtGt_some_of_take6 {l : List Char}
    (h6 : lowerStr (l.take 6) = htmlTagPat) :
    splitAtGt (l.drop 5) ≠ none := by
  intro hsp
  have hlen : l.length ≥ 6 := by
    have := congrArg List.length h6
    simp only [lowerStr, List.length_map, List.length_take] at this
    rw [show htmlTagPat.length = 6 from rfl] at this
    omega
  have h65 : l.take 6 = l.take 5 ++ (l[5]?).toList := List.take_succ
  rw [h65] at h6
  simp only [lowerStr, List.map_append] at h6
  rw [show htmlTagPat = htmlOpenPat ++ ['>'] from rfl] at h6
  have hlen5 : (List.map Char.toLower (l.take 5)).length = htmlOpenPat.length := by
    simp only [List.length_map, List.length_take]
    rw [show htmlOpenPat.length = 5 from rfl]
    omega
  obtain ⟨_, h2⟩ := List.append_inj h6 hlen5
  cases hg : l[5]? with
  | none =>
    rw [hg] at h2
    simp at h2
  | some ch =>
    rw [hg] at h2
    simp only [Option.toList_some, List.map_cons, List.map_nil] at h2
    have hch : ch = '>' := toLower_eq_gt (by
      have := congrArg (fun x => List.headD x ' ') h2
      simpa using this)
    have hdg : (l.drop 5)[0]? = some '>' := by
      rw [List.getElem?_drop]
      rw [show 5 + 0 = 5 from rfl, hg, hch]
    have hmem : '>' ∈ l.drop 5 := List.getElem?_mem hdg
    exact absurd hmem (splitAtGt_none hsp)

theorem repl_infix_replaceHtmlOpen (repl : List Char)
    (s : List Char) (h : strIncludes (lowerStr s) htmlTagPat = true) :
    List.IsInfix repl (replaceHtmlOpenCI repl s) := by
  induction s with
  | nil => exact absurd h (by decide)
  | cons c cs ih =>
    have hexp : strIncludes (lowerStr (c :: cs)) htmlTagPat
        = ((decide ((lowerStr (c :: cs)).take htmlTagPat.length = htmlTagPat))
          || strIncludes (lowerStr cs) htmlTagPat) := rfl
    unfold replaceHtmlOpenCI
    by_cases ht : lowerStr ((c :: cs).take 5) = htmlOpenPat
    · rw [if_pos ht]
      cases hsp : splitAtGt ((c :: cs).drop 5) with
      | some mr =>
        obtain ⟨m, r⟩ := mr
        exact ⟨(c :: cs).take 5 ++ m, r, by simp⟩
      | none =>
        refine List.infix_cons (ih ?_)
        rw [hexp, Bool.or_eq_true] at h
        rcases h with h | h
        · exfalso
          rw [decide_eq_true_iff] at h
          exact splitAtGt_some_of_take6 (headTest6 h) hsp
        · exact h
    · rw [if_neg ht]
      refine List.infix_cons (ih ?_)
      rw [hexp, Bool.or_eq_true] at h
      rcases h with h | h
      · exfalso
        rw [decide_eq_true_iff] at h
        exact ht (take5_of_take6 (headTest6 h))
      · exact h

theorem hasPrintMarker_enhance (html : List Char) :
    hasPrintMarker (enhanceHtmlForPrinting html) = true := by
  unfold enhanceHtmlForPrinting
  by_cases hm : hasPrintMarker html = true
  · rw [if_neg]
    · exact hm
    · unfold hasPrintMarker at hm
      simp only [Bool.and_eq_true, Bool.not_eq_true']
      intro hcon
      rw [hcon.1, hcon.2] at hm
      simp at hm
  · have hm' : (!(strIncludes (lowerStr html) mediaPrintPat)
        && !(strIncludes (lowerStr html) pagePat)) = true := by
      unfold hasPrintMarker at hm
      simp only [Bool.or_eq_true, not_or] at hm
      push_neg at hm
      simp only [Bool.and_eq_true, Bool.not_eq_true']
      exact ⟨Bool.eq_false_iff.mpr hm.1, Bool.eq_false_iff.mpr hm.2⟩
    rw [if_pos hm']
    by_cases hh : strIncludes (lowerStr html) headClosePat = true
    · rw [if_pos hh]
      have hcss : List.IsInfix printCssL
          (replaceOnceCI headClosePat (printCssL ++ headClosePat) html) := by
        have hr := repl_infix_replaceOnceCI headClosePat (printCssL ++ headClosePat)
          (by decide) html hh
        have hpre : List.IsInfix printCssL (printCssL ++ headClosePat) :=
          ⟨[], headClosePat, by simp⟩
        exact hpre.trans hr
      unfold hasPrintMarker
      rw [marker_of_printCss_within _ hcss]
      simp
    · rw [if_neg hh]
      by_cases hg : strIncludes (lowerStr html) htmlTagPat = true
      · rw [if_pos hg]
        unfold hasPrintMarker
        rw [marker_of_printCss_within _ (repl_infix_replaceHtmlOpen printCssL html hg)]
        simp
      · rw [if_neg hg]
        unfold hasPrintMarker
        rw [marker_of_printCss_within _ ⟨[], html, by simp⟩]
        simp

theorem enhance_of_marker (html : List Char) (h : hasPrintMarker html = true) :
    enhanceHtmlForPrinting html = html := by
  unfold enhanceHtmlForPrinting
  rw [if_neg]
  unfold hasPrintMarker at h
  simp only [Bool.and_eq_true, Bool.not_eq_true']
  intro hcon
  rw [hcon.1, hcon.2] at h
  simp at h

/-- C10 (amended): `enhanceHtmlForPrinting` is idempotent: its output
always contains `@media print` or `@page` (case-insensitively), and any
input already containing either marker is returned unchanged.  (The output
need not contain `@media print` itself: an input containing only `@page`
is returned as-is.) -/
theorem enhanceHtmlForPrinting_idempotent (html : List Char) :
    enhanceHtmlForPrinting (enhanceHtmlForPrinting html)
        = enhanceHtmlForPrinting html ∧
    hasPrintMarker (enhanceHtmlForPrinting html) = true ∧
    (hasPrintMarker html = true → enhanceHtmlForPrinting html = html) := by
  refine ⟨?_, hasPrintMarker_enhance html, enhance_of_marker html⟩
  exact enhance_of_marker _ (hasPrintMarker_enhance html)

/-- Counterexample to C10's stated reason: an input containing only
`@page` is returned unchanged and the output contains no `@media print`
block, so "the output always contains an `@media print` block" is false
(idempotence itself holds, per the amended theorem). -/
theorem enhance_output_without_mediaPrint :
    enhanceHtmlForPrinting ("<style>@page \x7b \x7d</style>".data)
        = "<style>@page \x7b \x7d</style>".data ∧
    strIncludes (lowerStr ("<style>@page \x7b \x7d</style>".data)) mediaPrintPat
        = false := by
  constructor
  · rfl
  · rfl

/-- Witness for C10 (amended): the conditional clause discharged on a
concrete input that already has a `@media print` marker. -/
theorem enhanceHtmlForPrinting_idempotent_witness :
    enhanceHtmlForPrinting ("x@media printy".data) = "x@media printy".data :=
  (enhanceHtmlForPrinting_idempotent ("x@media printy".data)).2.2 (by rfl)
